import Mathlib

/-!
# dmv_price_tracker: the load routine of the map viewer

A shallow embedding of `wasm_viewer/www/main.js` (`run`): the shape
normalisation of the parsed payload (lines 21-40), the credential check
(lines 47-54), the construction of the map (lines 57-67) and the `load`
handler that projects the records into point features (lines 67-131).

JavaScript values are modelled by `JsValue`; strings are sequences of UTF-16
code units, numbers are IEEE doubles given by sign, mantissa and binary
exponent. `console.log` calls are left out: they have no effect on the values
and calls modelled here.
-/

namespace DmvPriceTracker

/-! ## Values -/

/-- A JavaScript string: its UTF-16 code units. -/
abbrev JsString := List Nat

/-- UTF-16 code units of a text, used for the string literals of the source. -/
def utf16 (s : String) : JsString :=
  s.toList.flatMap fun c =>
    if c.toNat < 65536 then [c.toNat]
    else [55296 + (c.toNat - 65536) / 1024, 56320 + (c.toNat - 65536) % 1024]

/-- A JavaScript number (IEEE double): `finite neg m e` is `± m * 2 ^ e`
(both zeros have `m = 0`), the infinities, and NaN. -/
inductive JsNum where
  | finite (neg : Bool) (m : Nat) (e : Int)
  | inf (neg : Bool)
  | nan
  deriving DecidableEq

/-- A JavaScript value as `JSON.parse` builds it, together with `undefined`,
which reads of missing properties produce. An object is the list of its own
properties in enumeration order. -/
inductive JsValue where
  | undefined
  | null
  | bool (b : Bool)
  | num (n : JsNum)
  | str (s : JsString)
  | arr (xs : List JsValue)
  | obj (fields : List (JsString × JsValue))

/-- Errors that `run` can meet; all of them reach its `catch` handler. -/
inductive JsError where
  | typeError
  | syntaxError
  | rejected
  | renderingFault
  deriving DecidableEq

/-- Result of a piece of code: a value, a raised error, or a loop that has no
bound, so that the code after it is never reached. -/
inductive Outcome (α : Type) where
  | ok (a : α)
  | raised (e : JsError)
  | unbounded

/-! ## Primitive operations of the language -/

/-- The abstract operation `ToBoolean`: the test made by `if`, `&&` and `||`. -/
def JsValue.toBoolean : JsValue → Bool
  | .undefined => false
  | .null => false
  | .bool b => b
  | .num (.finite _ m _) => m != 0
  | .num (.inf _) => true
  | .num .nan => false
  | .str s => !s.isEmpty
  | .arr _ => true
  | .obj _ => true

/-- The test `Array.isArray(v)`. -/
def JsValue.isArray : JsValue → Bool
  | .arr _ => true
  | _ => false

/-- The value of `a || b`. -/
def jsOr (a b : JsValue) : JsValue :=
  if a.toBoolean then a else b

/-- The value of `a && b`. -/
def jsAnd (a b : JsValue) : JsValue :=
  if a.toBoolean then b else a

/-- Property key of the array index `i`: its decimal digits. -/
def indexKey (i : Nat) : JsString :=
  if i = 0 then [48] else (Nat.digits 10 i).reverse.map (· + 48)

/-- Own enumerable properties of a value that is neither `undefined` nor
`null`, in enumeration order: the fields of an object, the elements of an
array and the code units of a string under their index keys. -/
def JsValue.ownEntries : JsValue → List (JsString × JsValue)
  | .obj fields => fields
  | .arr xs => xs.enum.map fun p => (indexKey p.1, p.2)
  | .str s => s.enum.map fun p => (indexKey p.1, .str [p.2])
  | _ => []

/-- The call `Object.entries(v)`. -/
def objectEntries : JsValue → Outcome (List (JsString × JsValue))
  | .undefined => .raised .typeError
  | .null => .raised .typeError
  | v => .ok v.ownEntries

/-- The call `Object.keys(v)`. -/
def objectKeys (v : JsValue) : Outcome (List JsString) :=
  match objectEntries v with
  | .ok es => .ok (es.map Prod.fst)
  | .raised e => .raised e
  | .unbounded => .unbounded

/-- The reads `v[key]` and `v.key`, for a key other than `length` and the
members of the built-in prototypes (`run` reads `columns`, `longitude`,
`latitude`, `address`, `price`, `bedrooms`, `bathrooms` and keys given by
`Object.keys`): an own property, or `undefined`. -/
def getProp (v : JsValue) (key : JsString) : Outcome JsValue :=
  match v with
  | .undefined => .raised .typeError
  | .null => .raised .typeError
  | v => .ok ((v.ownEntries.lookup key).getD .undefined)

/-- The read `values[i]` for a loop counter `i`. -/
def getIndex (values : JsValue) (i : Nat) : Outcome JsValue :=
  match values with
  | .undefined => .raised .typeError
  | .null => .raised .typeError
  | .arr xs => .ok (xs.getD i .undefined)
  | .str s => .ok ((s.get? i).elim .undefined fun u => .str [u])
  | .obj fields => .ok ((fields.lookup (indexKey i)).getD .undefined)
  | _ => .ok .undefined

/-- The assignment `prop[key] = v` on a plain object, for an index key. -/
def setProp (prop : List (JsString × JsValue)) (key : JsString) (v : JsValue) :
    List (JsString × JsValue) :=
  match prop with
  | [] => [(key, v)]
  | (k, w) :: rest => if k = key then (k, v) :: rest else (k, w) :: setProp rest key v

/-- What `x.length` reads: the size of an array or of a string, nothing
(`undefined`), or the own `length` field of an object. -/
inductive LengthValue where
  | size (n : Nat)
  | absent
  | field (v : JsValue)

/-- The read `x.length`. -/
def getLength : JsValue → Outcome LengthValue
  | .undefined => .raised .typeError
  | .null => .raised .typeError
  | .arr xs => .ok (.size xs.length)
  | .str s => .ok (.size s.length)
  | .obj fields =>
    match fields.lookup (utf16 "length") with
    | some v => .ok (.field v)
    | none => .ok .absent
  | _ => .ok .absent

/-- Number of iterations of `for (let i = 0; i < length; i++)`, `none` when the
loop has no bound. An array or a string gives its size, `0 < undefined` is
false. A `length` that is a field of a JSON object can be any value (a number
that is not an integer, an infinity, a string, an array): the comparison
coerces it to a number, and the number of iterations that results is the
parameter `loopBound`. Every theorem below holds for every `loopBound`. -/
def loopCount (loopBound : JsValue → Option Nat) : LengthValue → Option Nat
  | .size n => some n
  | .absent => some 0
  | .field v => loopBound v

/-! ## Shape normalisation (`run`, lines 21-40) -/

/-- Lines 32-35: the record of row `i`, filled entry by entry:
`for (const [key, values] of Object.entries(cols)) prop[key] = values[i]`. -/
def fillProp (i : Nat) :
    List (JsString × JsValue) → List (JsString × JsValue) →
      Outcome (List (JsString × JsValue))
  | [], prop => .ok prop
  | (key, values) :: rest, prop =>
    match getIndex values i with
    | .ok v => fillProp i rest (setProp prop key v)
    | .raised e => .raised e
    | .unbounded => .unbounded

/-- Lines 31-37 with a bounded `length`: `remaining` further iterations from
counter `i`, each pushing one record onto `properties`. -/
def pushRows (entries : List (JsString × JsValue)) :
    Nat → Nat → List JsValue → Outcome (List JsValue)
  | 0, _, properties => .ok properties
  | remaining + 1, i, properties =>
    match fillProp i entries [] with
    | .ok prop => pushRows entries remaining (i + 1) (properties ++ [.obj prop])
    | .raised e => .raised e
    | .unbounded => .unbounded

/-- Lines 28-37: the columnar branch, `cols` being `parsedData.columns`. With
no bound on the loop the first iteration decides: it raises, or the loop
pushes records for ever (whether `values[i]` raises does not depend on `i`). -/
def columnsToRecords (loopBound : JsValue → Option Nat) (cols : JsValue) :
    Outcome (List JsValue) :=
  match objectKeys cols with
  | .raised e => .raised e
  | .unbounded => .unbounded
  | .ok keys =>
    match getProp cols (keys.head?.getD (utf16 "undefined")) with
    | .raised e => .raised e
    | .unbounded => .unbounded
    | .ok first =>
      match getLength first with
      | .raised e => .raised e
      | .unbounded => .unbounded
      | .ok length =>
        match objectEntries cols with
        | .raised e => .raised e
        | .unbounded => .unbounded
        | .ok entries =>
          match loopCount loopBound length with
          | some n => pushRows entries n 0 []
          | none =>
            match fillProp 0 entries [] with
            | .raised e => .raised e
            | _ => .unbounded

/-- Line 25: the test `parsedData.columns && Array.isArray(parsedData.columns)`
on the value `columns` of `parsedData.columns`. -/
def columnarGuard (columns : JsValue) : Bool :=
  (jsAnd columns (.bool columns.isArray)).toBoolean

/-- Lines 22-40: the value of `properties` after the shape dispatch on
`parsedData`. -/
def normalize (loopBound : JsValue → Option Nat) (parsedData : JsValue) :
    Outcome (List JsValue) :=
  match parsedData with
  | .arr xs => .ok xs
  | _ =>
    match getProp parsedData (utf16 "columns") with
    | .raised e => .raised e
    | .unbounded => .unbounded
    | .ok columns =>
      if columnarGuard columns then
        columnsToRecords loopBound columns
      else .ok [parsedData]

/-! ## Feature projection (`run`, lines 75-87) -/

/-- The `properties` object of a feature: its display attributes. -/
structure DisplayAttributes where
  title : JsValue
  price : JsValue
  bedrooms : JsValue
  bathrooms : JsValue

/-- A GeoJSON point feature (`type: 'Feature'`, `geometry.type: 'Point'`). -/
structure Feature where
  coordinates : List JsValue
  properties : DisplayAttributes

/-- Lines 75-87: the arrow function given to `properties.map`. -/
def toFeature (prop : JsValue) : Outcome Feature :=
  match getProp prop (utf16 "longitude"), getProp prop (utf16 "latitude"),
    getProp prop (utf16 "address"), getProp prop (utf16 "price"),
    getProp prop (utf16 "bedrooms"), getProp prop (utf16 "bathrooms") with
  | .ok longitude, .ok latitude, .ok address, .ok price, .ok bedrooms, .ok bathrooms =>
    .ok
      { coordinates := [longitude, latitude]
        properties :=
          { title := jsOr address (.str (utf16 "Property"))
            price := jsOr price (.str (utf16 "N/A"))
            bedrooms := jsOr bedrooms (.str (utf16 "N/A"))
            bathrooms := jsOr bathrooms (.str (utf16 "N/A")) } }
  | .raised e, _, _, _, _, _ => .raised e
  | _, .raised e, _, _, _, _ => .raised e
  | _, _, .raised e, _, _, _ => .raised e
  | _, _, _, .raised e, _, _ => .raised e
  | _, _, _, _, .raised e, _ => .raised e
  | _, _, _, _, _, .raised e => .raised e
  | _, _, _, _, _, _ => .unbounded

/-- Line 75: `properties.map(prop => ...)`, the features of the collection. -/
def project : List JsValue → Outcome (List Feature)
  | [] => .ok []
  | prop :: rest =>
    match toFeature prop with
    | .raised e => .raised e
    | .unbounded => .unbounded
    | .ok f =>
      match project rest with
      | .ok fs => .ok (f :: fs)
      | .raised e => .raised e
      | .unbounded => .unbounded

/-! ## The load routine `run` -/

/-- What `run` writes into the `vis` element. -/
inductive VisContent where
  /-- Lines 49-52: the four fixed lines telling how to set the token. -/
  | tokenInstructions
  /-- Line 136: the error dump of the `catch` handler. -/
  | errorDump (e : JsError)

/-- Calls that `run` and the `load` handler make on their collaborators. -/
inductive Effect where
  /-- Line 5: `init()`. -/
  | wasmInit
  /-- Line 10: `load_and_render_map()`, the retrieval of the payload. -/
  | loadAndRenderMap
  /-- Lines 48 and 135: `document.getElementById('vis').innerHTML = ...`. -/
  | setVis (content : VisContent)
  /-- Line 57: `mapboxgl.accessToken = MAPBOX_ACCESS_TOKEN`. -/
  | setAccessToken (token : JsValue)
  /-- Line 59: `new mapboxgl.Map(...)`. -/
  | newMap
  /-- Line 67: `map.on('load', ...)`; the handler keeps `properties`. -/
  | onLoad (properties : List JsValue)
  /-- Line 71: `map.addSource('properties', ...)`. -/
  | addSource (features : List Feature)
  /-- Line 92: `map.addLayer(...)`. -/
  | addLayer
  /-- Line 106: `map.on('click', 'property-points', ...)`. -/
  | onClick
  /-- Line 122: `map.on('mouseenter', 'property-points', ...)`. -/
  | onMouseEnter
  /-- Line 126: `map.on('mouseleave', 'property-points', ...)`. -/
  | onMouseLeave

/-- What the collaborators of `run` do in one run. -/
structure Env where
  /-- Whether the promise of `init()` resolves. -/
  initOk : Bool
  /-- Lines 10-17: the value of `JSON.parse(dataStr)`, or the error raised by
  the retrieval, by `data.toString()` or by `JSON.parse`. -/
  parsed : Outcome JsValue
  /-- Value of the global `MAPBOX_ACCESS_TOKEN`, `undefined` when not set. -/
  token : JsValue
  /-- Whether `new mapboxgl.Map(...)` returns normally; `map.on` is taken to
  return normally. -/
  mapOk : Bool
  /-- Iterations that `i < length` allows for an exotic `length`, see
  `loopCount`. -/
  loopBound : JsValue → Option Nat

/-- Line 47: `typeof MAPBOX_ACCESS_TOKEN === 'undefined' ||
MAPBOX_ACCESS_TOKEN === 'YOUR_MAPBOX_ACCESS_TOKEN_HERE'`. -/
def tokenMissing : JsValue → Bool
  | .undefined => true
  | .str s => decide (s = utf16 "YOUR_MAPBOX_ACCESS_TOKEN_HERE")
  | _ => false

/-- Lines 44-67, reached with the normalised `properties`. -/
def createMap (env : Env) (properties : List JsValue) : List Effect :=
  if tokenMissing env.token then [.setVis .tokenInstructions]
  else if env.mapOk then [.setAccessToken env.token, .newMap, .onLoad properties]
  else [.setAccessToken env.token, .newMap, .setVis (.errorDump .renderingFault)]

/-- Lines 17-40 and their continuation, reached with the parsed payload. Line
19 calls `Object.keys(parsedData)`, which raises on `null`. -/
def afterParse (env : Env) (parsedData : JsValue) : List Effect :=
  match objectKeys parsedData with
  | .raised e => [.setVis (.errorDump e)]
  | .unbounded => []
  | .ok _ =>
    match normalize env.loopBound parsedData with
    | .raised e => [.setVis (.errorDump e)]
    | .unbounded => []
    | .ok properties => createMap env properties

/-- The calls made by one execution of `run()`, in order. When `init()`
rejects, `run` ends before its `try` block. -/
def run (env : Env) : List Effect :=
  if env.initOk then
    .wasmInit :: .loadAndRenderMap ::
      match env.parsed with
      | .raised e => [.setVis (.errorDump e)]
      | .unbounded => []
      | .ok parsedData => afterParse env parsedData
  else [.wasmInit]

/-- Lines 67-131: the calls made by the `load` handler registered by `run`.
An error raised while the features are built leaves the handler before
`map.addSource` is called. -/
def loadHandler (properties : List JsValue) : List Effect :=
  match project properties with
  | .ok features => [.addSource features, .addLayer, .onClick, .onMouseEnter, .onMouseLeave]
  | _ => []

/-! ## Sample values -/

/-- The double of a natural number. -/
def natNum (n : Nat) : JsValue := .num (.finite false n 0)

/-- The payload `{"columns": {"lat": [1, 2], "lon": [3, 4]}}`. -/
def mappingPayload : JsValue :=
  .obj [(utf16 "columns",
    .obj [(utf16 "lat", .arr [natNum 1, natNum 2]), (utf16 "lon", .arr [natNum 3, natNum 4])])]

/-- The payload `{"columns": {"a": [1, 2, 3], "b": [4, 5]}}`. -/
def raggedMappingPayload : JsValue :=
  .obj [(utf16 "columns",
    .obj [(utf16 "a", .arr [natNum 1, natNum 2, natNum 3]),
      (utf16 "b", .arr [natNum 4, natNum 5])])]

/-- The payload `{"columns": [[1, 2], [3]]}`. -/
def raggedArrayPayload : JsValue :=
  .obj [(utf16 "columns", .arr [.arr [natNum 1, natNum 2], .arr [natNum 3]])]

/-- The payload `[{"a": 1}, {"b": 2}]`. -/
def mixedRecordsPayload : JsValue :=
  .arr [.obj [(utf16 "a", natNum 1)], .obj [(utf16 "b", natNum 2)]]

/-- A coercion for the runs of the examples: every exotic `length` gives no
iteration. -/
def noIterations : JsValue → Option Nat := fun _ => some 0

/-- The record that the columnar branch builds for row `i` from columns that
are arrays: column `k` gives the field named by `k`. -/
def rowOfColumns (cols : List (List JsValue)) (i : Nat) : JsValue :=
  .obj (cols.enum.map fun p => (indexKey p.1, p.2.getD i .undefined))

/-- Names of the own fields of a record, in enumeration order. -/
def fieldNames (record : JsValue) : List JsString :=
  record.ownEntries.map Prod.fst

/-- Names of the fields of an object after `prop[key] = v`. -/
def addKey (keys : List JsString) (key : JsString) : List JsString :=
  if key ∈ keys then keys else keys ++ [key]

/-- Value of the field `name` of a record, `undefined` when the record has no
such field. -/
def fieldValue (fields : List (JsString × JsValue)) (name : JsString) : JsValue :=
  (fields.lookup name).getD .undefined

/-- The values that the spec calls absent, null or falsy-empty: `undefined`,
`null`, `false`, a zero, NaN and the empty string. -/
def isMissingValue : JsValue → Bool
  | .undefined => true
  | .null => true
  | .bool false => true
  | .num (.finite _ 0 _) => true
  | .num .nan => true
  | .str [] => true
  | _ => false

/-- The field names that the feature projection reads from a record. -/
def featureFieldNames : List JsString :=
  [utf16 "latitude", utf16 "longitude", utf16 "address", utf16 "price", utf16 "bedrooms",
    utf16 "bathrooms"]

/-- Length of the shortest of the given sequences. -/
def shortestLength : List (List JsValue) → Nat
  | [] => 0
  | [c] => c.length
  | c :: rest => min c.length (shortestLength rest)

/-- Calls that construct the map or register a source, a layer or a handler. -/
def Effect.isMapWork : Effect → Bool
  | .wasmInit => false
  | .loadAndRenderMap => false
  | .setVis _ => false
  | _ => true

/-- The payload `{"address": "1 Main St", "price": 0}`. -/
def singleRecordFields : List (JsString × JsValue) :=
  [(utf16 "address", .str (utf16 "1 Main St")), (utf16 "price", natNum 0)]

/-- The payload `{"address": "1 Main St", "columns": []}`. -/
def emptyColumnsFields : List (JsString × JsValue) :=
  [(utf16 "address", .str (utf16 "1 Main St")), (utf16 "columns", .arr [])]

/-- The payload `{"address": "1 Main St", "columns": [5, [1, 2]]}`. -/
def numberColumnsFields : List (JsString × JsValue) :=
  [(utf16 "address", .str (utf16 "1 Main St")),
    (utf16 "columns", .arr [natNum 5, .arr [natNum 1, natNum 2]])]

/-- The payload `{"address": "1 Main St", "columns": ["ab", "cd"]}`. -/
def stringColumnsFields : List (JsString × JsValue) :=
  [(utf16 "address", .str (utf16 "1 Main St")),
    (utf16 "columns", .arr [.str (utf16 "ab"), .str (utf16 "cd")])]

/-- The payload `{"columns": [5]}`. -/
def oneNumberColumnFields : List (JsString × JsValue) :=
  [(utf16 "columns", .arr [natNum 5])]

/-- A run in which everything succeeds and the credential is not set. -/
def unsetTokenEnv : Env :=
  { initOk := true
    parsed := .ok (.arr [.obj singleRecordFields])
    token := .undefined
    mapOk := true
    loopBound := noIterations }

/-- The feature that lines 75-87 build from a record with the given fields. -/
def featureOfFields (fields : List (JsString × JsValue)) : Feature :=
  { coordinates := [fieldValue fields (utf16 "longitude"), fieldValue fields (utf16 "latitude")]
    properties :=
      { title := jsOr (fieldValue fields (utf16 "address")) (.str (utf16 "Property"))
        price := jsOr (fieldValue fields (utf16 "price")) (.str (utf16 "N/A"))
        bedrooms := jsOr (fieldValue fields (utf16 "bedrooms")) (.str (utf16 "N/A"))
        bathrooms := jsOr (fieldValue fields (utf16 "bathrooms")) (.str (utf16 "N/A")) } }

/-! ## Lemmas on the primitive operations -/

theorem columnarGuard_eq_isArray (c : JsValue) : columnarGuard c = c.isArray := by
  unfold columnarGuard
  cases c with
  | undefined => rfl
  | null => rfl
  | bool b => cases b <;> rfl
  | num n =>
    cases n with
    | finite neg m e => cases m <;> rfl
    | inf neg => rfl
    | nan => rfl
  | str s => cases s <;> rfl
  | arr xs => rfl
  | obj fields => rfl

theorem getProp_obj (fields : List (JsString × JsValue)) (key : JsString) :
    getProp (.obj fields) key = .ok ((fields.lookup key).getD .undefined) := rfl

theorem normalize_arr (loopBound : JsValue → Option Nat) (xs : List JsValue) :
    normalize loopBound (.arr xs) = .ok xs := rfl

theorem normalize_obj (loopBound : JsValue → Option Nat) (fields : List (JsString × JsValue)) :
    normalize loopBound (.obj fields) =
      if ((fields.lookup (utf16 "columns")).getD .undefined).isArray then
        columnsToRecords loopBound ((fields.lookup (utf16 "columns")).getD .undefined)
      else .ok [.obj fields] := by
  simp only [normalize, getProp_obj, columnarGuard_eq_isArray]

theorem normalize_obj_of_not_array (loopBound : JsValue → Option Nat)
    (fields : List (JsString × JsValue))
    (h : ∀ cols, fields.lookup (utf16 "columns") ≠ some (.arr cols)) :
    normalize loopBound (.obj fields) = .ok [.obj fields] := by
  rw [normalize_obj]
  have : ((fields.lookup (utf16 "columns")).getD .undefined).isArray = false := by
    cases hc : fields.lookup (utf16 "columns") with
    | none => rfl
    | some c =>
      cases c <;> simp [JsValue.isArray]
      case arr xs => exact absurd hc (h xs)
  simp [this]

/-! ## Lemmas on index keys -/

theorem add48_injective : Function.Injective fun d : Nat => d + 48 :=
  fun _ _ h => Nat.add_right_cancel h

theorem indexKey_of_ne_zero {i : Nat} (hi : i ≠ 0) :
    indexKey i = (Nat.digits 10 i).reverse.map (· + 48) := by
  simp [indexKey, hi]

theorem digits_ne_singleton_zero {i : Nat} (hi : i ≠ 0) : Nat.digits 10 i ≠ [0] := by
  intro h
  have hlast := Nat.getLast_digit_ne_zero 10 hi
  simp [h] at hlast

theorem indexKey_zero_ne {i : Nat} (hi : i ≠ 0) : indexKey 0 ≠ indexKey i := by
  intro h
  rw [indexKey_of_ne_zero hi] at h
  have h0 : indexKey 0 = List.map (· + 48) [0] := rfl
  rw [h0] at h
  have hrev := (List.map_injective_iff.mpr add48_injective) h
  have hd : Nat.digits 10 i = [0] := by
    have := congrArg List.reverse hrev
    simpa using this.symm
  exact digits_ne_singleton_zero hi hd

theorem indexKey_injective : Function.Injective indexKey := by
  intro i j h
  by_cases hi : i = 0
  · by_cases hj : j = 0
    · rw [hi, hj]
    · rw [hi] at h
      exact absurd h (indexKey_zero_ne hj)
  · by_cases hj : j = 0
    · rw [hj] at h
      exact absurd h.symm (indexKey_zero_ne hi)
    · rw [indexKey_of_ne_zero hi, indexKey_of_ne_zero hj] at h
      have hrev := (List.map_injective_iff.mpr add48_injective) h
      exact Nat.digits.injective 10 (List.reverse_injective hrev)

/-- Every code unit of an index key is a decimal digit. -/
theorem indexKey_units (i u : Nat) (hu : u ∈ indexKey i) : 48 ≤ u ∧ u ≤ 57 := by
  by_cases hi : i = 0
  · subst hi
    have : u = 48 := by simpa [indexKey] using hu
    omega
  · rw [indexKey_of_ne_zero hi] at hu
    obtain ⟨d, hd, rfl⟩ := List.mem_map.mp hu
    have := Nat.digits_lt_base (by norm_num : 1 < 10) (List.mem_reverse.mp hd)
    constructor <;> omega

/-- A name holding a code unit that is not a digit is no index key. -/
theorem indexKey_ne_of_unit (name : JsString) (u : Nat) (hu : u ∈ name)
    (hnd : u < 48 ∨ 57 < u) (i : Nat) : indexKey i ≠ name := by
  intro h
  have := indexKey_units i u (h ▸ hu)
  omega

/-! ## Lemmas on the columnar branch -/

theorem setProp_of_not_mem (prop : List (JsString × JsValue)) (key : JsString) (v : JsValue)
    (h : key ∉ prop.map Prod.fst) : setProp prop key v = prop ++ [(key, v)] := by
  induction prop with
  | nil => rfl
  | cons p rest ih =>
    obtain ⟨k, w⟩ := p
    simp only [List.map_cons, List.mem_cons, not_or] at h
    have hk : k ≠ key := fun e => h.1 e.symm
    simp [setProp, hk, ih h.2]

theorem fillProp_append (i : Nat) (cell : JsValue → JsValue) :
    ∀ (entries prop : List (JsString × JsValue)),
      (∀ e ∈ entries, getIndex e.2 i = .ok (cell e.2)) →
      (entries.map Prod.fst).Nodup →
      (∀ e ∈ entries, e.1 ∉ prop.map Prod.fst) →
      fillProp i entries prop = .ok (prop ++ entries.map fun e => (e.1, cell e.2)) := by
  intro entries
  induction entries with
  | nil => intro prop _ _ _; simp [fillProp]
  | cons e rest ih =>
    intro prop hget hnd hfresh
    obtain ⟨key, values⟩ := e
    have hv : getIndex values i = .ok (cell values) := hget (key, values) (List.mem_cons_self _ _)
    have hkey : key ∉ prop.map Prod.fst := hfresh (key, values) (List.mem_cons_self _ _)
    simp only [List.map_cons, List.nodup_cons] at hnd
    simp only [fillProp, hv]
    rw [setProp_of_not_mem prop key _ hkey]
    rw [ih (prop ++ [(key, cell values)]) (fun e he => hget e (List.mem_cons_of_mem _ he)) hnd.2]
    · simp
    · intro e he
      simp only [List.map_append, List.map_cons, List.map_nil, List.mem_append,
        List.mem_singleton, not_or]
      refine ⟨hfresh e (List.mem_cons_of_mem _ he), ?_⟩
      intro heq
      exact hnd.1 (heq ▸ List.mem_map_of_mem Prod.fst he)

theorem pushRows_eq (entries : List (JsString × JsValue))
    (row : Nat → List (JsString × JsValue))
    (h : ∀ i, fillProp i entries [] = .ok (row i)) :
    ∀ (n i : Nat) (properties : List JsValue),
      pushRows entries n i properties =
        .ok (properties ++ (List.range n).map fun j => .obj (row (i + j))) := by
  intro n
  induction n with
  | zero => intro i properties; simp [pushRows]
  | succ n ih =>
    intro i properties
    simp only [pushRows, h i]
    rw [ih (i + 1) (properties ++ [JsValue.obj (row i)]), List.range_succ_eq_map]
    simp [List.append_assoc, Function.comp_def, Nat.add_assoc, Nat.add_comm 1]

theorem arrayEntries_keys_nodup (xs : List JsValue) :
    ((JsValue.arr xs).ownEntries.map Prod.fst).Nodup := by
  have : (JsValue.arr xs).ownEntries.map Prod.fst = (List.range xs.length).map indexKey := by
    simp only [JsValue.ownEntries, List.map_map]
    rw [← List.enum_map_fst xs, List.map_map]
    rfl
  rw [this]
  exact (List.nodup_range _).map indexKey_injective

theorem fillProp_arrays (cols : List (List JsValue)) (i : Nat) :
    fillProp i (JsValue.arr (cols.map .arr)).ownEntries [] =
      .ok (cols.enum.map fun p => (indexKey p.1, p.2.getD i .undefined)) := by
  have h := fillProp_append i
    (fun v => match v with
      | .arr xs => xs.getD i .undefined
      | _ => .undefined)
    (JsValue.arr (cols.map .arr)).ownEntries [] ?_ (arrayEntries_keys_nodup _) ?_
  · rw [h]
    simp [JsValue.ownEntries, List.enum_map, Function.comp_def]
  · intro e he
    simp only [JsValue.ownEntries, List.enum_map, List.map_map, List.mem_map] at he
    obtain ⟨p, _, rfl⟩ := he
    rfl
  · intro e _
    simp

theorem columnsToRecords_arrays (loopBound : JsValue → Option Nat)
    (c0 : List JsValue) (rest : List (List JsValue)) :
    columnsToRecords loopBound (.arr ((c0 :: rest).map .arr)) =
      .ok ((List.range c0.length).map (rowOfColumns (c0 :: rest))) := by
  have hkeys : objectKeys (.arr ((c0 :: rest).map .arr)) =
      .ok (indexKey 0 :: ((rest.map JsValue.arr).enumFrom 1).map fun p => indexKey p.1) := by
    simp [objectKeys, objectEntries, JsValue.ownEntries, List.enum_cons, Function.comp_def]
  have hfirst : getProp (.arr ((c0 :: rest).map .arr)) (indexKey 0) = .ok (.arr c0) := by
    simp [getProp, JsValue.ownEntries, List.enum_cons]
  have hrows := pushRows_eq (JsValue.arr ((c0 :: rest).map .arr)).ownEntries
    (fun i => (c0 :: rest).enum.map fun p => (indexKey p.1, p.2.getD i .undefined))
    (fun i => fillProp_arrays (c0 :: rest) i) c0.length 0 []
  simp only [columnsToRecords, hkeys, List.head?_cons, Option.getD_some, hfirst, getLength,
    objectEntries, loopCount, hrows]
  simp [rowOfColumns]

theorem setProp_keys (prop : List (JsString × JsValue)) (key : JsString) (v : JsValue) :
    (setProp prop key v).map Prod.fst = addKey (prop.map Prod.fst) key := by
  induction prop with
  | nil => simp [setProp, addKey]
  | cons p rest ih =>
    obtain ⟨k, w⟩ := p
    by_cases hk : k = key
    · simp [setProp, addKey, hk]
    · have hk2 : ¬ key = k := fun e => hk e.symm
      simp only [setProp, hk, if_false, List.map_cons, ih]
      unfold addKey
      by_cases hmem : key ∈ rest.map Prod.fst
      · simp [hmem]
      · simp [hmem, hk2]

theorem fillProp_keys (i : Nat) :
    ∀ (entries prop filled : List (JsString × JsValue)),
      fillProp i entries prop = .ok filled →
      filled.map Prod.fst = entries.foldl (fun ks e => addKey ks e.1) (prop.map Prod.fst) := by
  intro entries
  induction entries with
  | nil =>
    intro prop filled h
    simp only [fillProp, Outcome.ok.injEq] at h
    simp [h]
  | cons e rest ih =>
    intro prop filled h
    obtain ⟨key, values⟩ := e
    simp only [fillProp] at h
    split at h
    · rename_i v _
      rw [ih _ _ h, setProp_keys]
      rfl
    · exact absurd h (by simp)
    · exact absurd h (by simp)

theorem pushRows_keys (entries : List (JsString × JsValue)) :
    ∀ (n i : Nat) (properties records : List JsValue),
      pushRows entries n i properties = .ok records →
      ∀ r ∈ records, r ∈ properties ∨
        fieldNames r = entries.foldl (fun ks e => addKey ks e.1) [] := by
  intro n
  induction n with
  | zero =>
    intro i properties records h r hr
    simp only [pushRows, Outcome.ok.injEq] at h
    exact Or.inl (h ▸ hr)
  | succ n ih =>
    intro i properties records h r hr
    simp only [pushRows] at h
    split at h
    · rename_i prop hprop
      rcases ih _ _ _ h r hr with hmem | hnames
      · rcases List.mem_append.mp hmem with hold | hnew
        · exact Or.inl hold
        · right
          have hr' : r = .obj prop := by simpa using hnew
          rw [hr']
          simpa [fieldNames, JsValue.ownEntries] using fillProp_keys i entries [] prop hprop
      · exact Or.inr hnames
    · exact absurd h (by simp)
    · exact absurd h (by simp)

theorem columnsToRecords_keys (loopBound : JsValue → Option Nat) (cols : JsValue)
    (records : List JsValue) (h : columnsToRecords loopBound cols = .ok records) :
    ∀ r ∈ records,
      fieldNames r = cols.ownEntries.foldl (fun ks e => addKey ks e.1) [] := by
  intro r hr
  unfold columnsToRecords at h
  split at h
  · exact absurd h (by simp)
  · exact absurd h (by simp)
  · split at h
    · exact absurd h (by simp)
    · exact absurd h (by simp)
    · split at h
      · exact absurd h (by simp)
      · exact absurd h (by simp)
      · split at h
        · exact absurd h (by simp)
        · exact absurd h (by simp)
        · rename_i entries hentries
          have he : entries = cols.ownEntries := by
            cases cols <;> simp_all [objectEntries]
          split at h
          · rcases pushRows_keys entries _ _ _ _ h r hr with hmem | hnames
            · simp at hmem
            · rw [hnames, he]
          · split at h
            · exact absurd h (by simp)
            · exact absurd h (by simp)

/-! ## Sequence payloads -/

/-- C3: for every parsed payload that is a sequence (of `N` objects, or of
anything else), the normalisation step yields that very sequence: `N` records,
record `i` being element `i` of the payload with its fields as they are. -/
theorem normalize_sequence_unchanged (loopBound : JsValue → Option Nat) (xs : List JsValue) :
    ∃ records, normalize loopBound (.arr xs) = .ok records ∧
      records.length = xs.length ∧ (∀ i : Nat, records[i]? = xs[i]?) ∧ records = xs :=
  ⟨xs, rfl, rfl, fun _ => rfl, rfl⟩

/-- C5, as the code has it: a sequence payload holding an element that is not
an object is not rejected; the normalisation step makes no check of the
elements and yields the sequence as it is. -/
theorem normalize_sequence_unchecked (loopBound : JsValue → Option Nat) (xs : List JsValue)
    (h : ∃ x ∈ xs, ∀ fields, x ≠ .obj fields) :
    normalize loopBound (.arr xs) = .ok xs ∧
      ∀ e, normalize loopBound (.arr xs) ≠ .raised e := by
  obtain ⟨_, _, _⟩ := h
  exact ⟨rfl, fun e he => by simp [normalize] at he⟩

theorem normalize_sequence_unchecked_witness :
    (∃ x ∈ [natNum 1, JsValue.null], ∀ fields, x ≠ .obj fields) ∧
      (normalize noIterations (.arr [natNum 1, .null]) = .ok [natNum 1, .null] ∧
        ∀ e, normalize noIterations (.arr [natNum 1, .null]) ≠ .raised e) :=
  ⟨⟨.null, by simp, by intro fields; simp⟩,
    normalize_sequence_unchecked noIterations [natNum 1, .null]
      ⟨.null, by simp, by intro fields; simp⟩⟩

/-- C5 fails on `[1]`: the payload is a sequence whose only element is a
number, and the normalisation step yields `[1]` instead of raising. -/
theorem sequence_of_number_not_rejected :
    (∃ x ∈ [natNum 1], ∀ fields, x ≠ .obj fields) ∧
      normalize noIterations (.arr [natNum 1]) = .ok [natNum 1] ∧
      ¬ ∃ e, normalize noIterations (.arr [natNum 1]) = .raised e :=
  ⟨⟨natNum 1, by simp, by intro fields; simp [natNum]⟩, rfl,
    by rintro ⟨e, he⟩; simp [normalize] at he⟩

/-! ## Single objects -/

/-- An empty `columns` array passes the test of line 25; line 29 then reads
`length` of `undefined` and raises. -/
theorem normalize_empty_columns_raises (loopBound : JsValue → Option Nat)
    (fields : List (JsString × JsValue))
    (h : fields.lookup (utf16 "columns") = some (.arr [])) :
    normalize loopBound (.obj fields) = .raised .typeError := by
  rw [normalize_obj, h]
  rfl

/-- A `columns` array whose first element is a number has no `length`: the
loop of line 31 does not run and no record is built. -/
theorem normalize_columns_of_numbers (loopBound : JsValue → Option Nat)
    (fields : List (JsString × JsValue)) (n : JsNum) (rest : List JsValue)
    (h : fields.lookup (utf16 "columns") = some (.arr (.num n :: rest))) :
    normalize loopBound (.obj fields) = .ok [] := by
  rw [normalize_obj, h]
  simp [JsValue.isArray, columnsToRecords, objectKeys, objectEntries, JsValue.ownEntries,
    List.enum_cons, getProp, getLength, loopCount, pushRows]

/-- C4 fails on objects whose `columns` field is an array that holds no
columns: `{"address": "1 Main St", "columns": []}` raises at line 29,
`{"address": "1 Main St", "columns": [5, [1, 2]]}` yields no record and
`{"address": "1 Main St", "columns": ["ab", "cd"]}` yields the two records
`{0: "a", 1: "c"}` and `{0: "b", 1: "d"}`; none yields the payload as its one
record. -/
theorem columns_array_without_columns_not_single :
    normalize noIterations (.obj emptyColumnsFields) = .raised .typeError ∧
      normalize noIterations (.obj numberColumnsFields) = .ok [] ∧
      normalize noIterations (.obj stringColumnsFields) =
        .ok [.obj [(utf16 "0", .str (utf16 "a")), (utf16 "1", .str (utf16 "c"))],
          .obj [(utf16 "0", .str (utf16 "b")), (utf16 "1", .str (utf16 "d"))]] ∧
      normalize noIterations (.obj emptyColumnsFields) ≠ .ok [.obj emptyColumnsFields] ∧
      normalize noIterations (.obj numberColumnsFields) ≠ .ok [.obj numberColumnsFields] ∧
      normalize noIterations (.obj stringColumnsFields) ≠ .ok [.obj stringColumnsFields] := by
  have h1 : normalize noIterations (.obj emptyColumnsFields) = .raised .typeError :=
    normalize_empty_columns_raises noIterations _ rfl
  have h2 : normalize noIterations (.obj numberColumnsFields) = .ok [] :=
    normalize_columns_of_numbers noIterations _ _ _ rfl
  have h3 : normalize noIterations (.obj stringColumnsFields) =
      .ok [.obj [(utf16 "0", .str (utf16 "a")), (utf16 "1", .str (utf16 "c"))],
        .obj [(utf16 "0", .str (utf16 "b")), (utf16 "1", .str (utf16 "d"))]] := by
    rw [normalize_obj]
    simp [stringColumnsFields, List.lookup, utf16, JsValue.isArray, columnsToRecords,
      objectKeys, objectEntries, JsValue.ownEntries, List.enum, List.enumFrom, getProp,
      getLength, loopCount, pushRows, fillProp, getIndex, setProp, indexKey]
  refine ⟨h1, h2, h3, ?_, ?_, ?_⟩
  · rw [h1]; simp
  · rw [h2]; simp
  · rw [h3]; simp

/-- C4, as the code has it: for every payload that is an object whose
`columns` field is absent or is not an array, the normalisation step yields
exactly one record, the payload object itself. -/
theorem normalize_single_object (loopBound : JsValue → Option Nat)
    (fields : List (JsString × JsValue))
    (h : ∀ cols, fields.lookup (utf16 "columns") ≠ some (.arr cols)) :
    normalize loopBound (.obj fields) = .ok [.obj fields] :=
  normalize_obj_of_not_array loopBound fields h

theorem normalize_single_object_witness :
    (∀ cols, singleRecordFields.lookup (utf16 "columns") ≠ some (.arr cols)) ∧
      normalize noIterations (.obj singleRecordFields) = .ok [.obj singleRecordFields] :=
  ⟨by intro cols; simp [singleRecordFields, List.lookup, utf16],
    normalize_single_object noIterations singleRecordFields
      (by intro cols; simp [singleRecordFields, List.lookup, utf16])⟩

/-! ## Columnar payloads -/

theorem normalize_columns_arrays (loopBound : JsValue → Option Nat)
    (fields : List (JsString × JsValue)) (c0 : List JsValue) (rest : List (List JsValue))
    (h : fields.lookup (utf16 "columns") = some (.arr ((c0 :: rest).map .arr))) :
    normalize loopBound (.obj fields) =
      .ok ((List.range c0.length).map (rowOfColumns (c0 :: rest))) := by
  rw [normalize_obj, h]
  simp only [Option.getD_some, JsValue.isArray, if_true]
  exact columnsToRecords_arrays loopBound c0 rest

theorem lookup_enumFrom_indexKey {β : Type} (f : β → JsValue) :
    ∀ (cols : List β) (n k : Nat) (col : β), cols[k]? = some col →
      List.lookup (indexKey (n + k)) ((cols.enumFrom n).map fun p => (indexKey p.1, f p.2)) =
        some (f col) := by
  intro cols
  induction cols with
  | nil => intro n k col h; simp at h
  | cons a rest ih =>
    intro n k col h
    cases k with
    | zero =>
      simp only [List.getElem?_cons_zero, Option.some.injEq] at h
      simp [List.enumFrom, h]
    | succ k =>
      simp only [List.getElem?_cons_succ] at h
      have hne : indexKey (n + (k + 1)) ≠ indexKey n := fun e => by
        have := indexKey_injective e
        omega
      have hstep := ih (n + 1) k col h
      rw [show n + 1 + k = n + (k + 1) by omega] at hstep
      simp only [List.enumFrom, List.map_cons, List.lookup_cons]
      have hb : (indexKey (n + (k + 1)) == indexKey n) = false := by simpa using hne
      rw [hb]
      exact hstep

theorem rowOfColumns_field (cols : List (List JsValue)) (i k : Nat) (col : List JsValue)
    (h : cols[k]? = some col) :
    getProp (rowOfColumns cols i) (indexKey k) = .ok (col.getD i .undefined) := by
  have := lookup_enumFrom_indexKey (fun c : List JsValue => c.getD i .undefined) cols 0 k col h
  simp only [Nat.zero_add] at this
  rw [rowOfColumns, getProp_obj, List.enum, this]
  rfl

theorem rowOfColumns_fieldNames (cols : List (List JsValue)) (i : Nat) :
    fieldNames (rowOfColumns cols i) = (List.range cols.length).map indexKey := by
  simp only [fieldNames, rowOfColumns, JsValue.ownEntries, List.map_map]
  rw [← List.enum_map_fst cols, List.map_map]
  rfl

theorem featureFieldNames_not_index (name : JsString) (h : name ∈ featureFieldNames) (k : Nat) :
    indexKey k ≠ name := by
  simp only [featureFieldNames, List.mem_cons, List.mem_singleton, List.not_mem_nil,
    or_false] at h
  rcases h with rfl | rfl | rfl | rfl | rfl | rfl
  · exact indexKey_ne_of_unit _ 108 (by decide) (by omega) k
  · exact indexKey_ne_of_unit _ 108 (by decide) (by omega) k
  · exact indexKey_ne_of_unit _ 97 (by decide) (by omega) k
  · exact indexKey_ne_of_unit _ 112 (by decide) (by omega) k
  · exact indexKey_ne_of_unit _ 98 (by decide) (by omega) k
  · exact indexKey_ne_of_unit _ 98 (by decide) (by omega) k

/-- C10 fails in its parenthesis: a non-empty array of arrays is not the only
shape that reaches the columnar branch. The `columns` values `[]` and `[5]`
pass the test of line 25 and neither is a non-empty array of arrays; the
branch then raises on `{"address": "1 Main St", "columns": []}` and builds no
record on `{"columns": [5]}`. -/
theorem columnar_branch_reached_by_other_arrays :
    columnarGuard (.arr []) = true ∧
      (¬ ∃ (c0 : List JsValue) (rest : List (List JsValue)),
        JsValue.arr [] = .arr ((c0 :: rest).map .arr)) ∧
      normalize noIterations (.obj emptyColumnsFields) = .raised .typeError ∧
      columnarGuard (.arr [natNum 5]) = true ∧
      (¬ ∃ (c0 : List JsValue) (rest : List (List JsValue)),
        JsValue.arr [natNum 5] = .arr ((c0 :: rest).map .arr)) ∧
      normalize noIterations (.obj oneNumberColumnFields) = .ok [] := by
  refine ⟨rfl, ?_, normalize_empty_columns_raises noIterations _ rfl, rfl, ?_,
    normalize_columns_of_numbers noIterations _ _ _ rfl⟩
  · rintro ⟨c0, rest, h⟩
    simp at h
  · rintro ⟨c0, rest, h⟩
    simp [natNum] at h

/-- C10, as the code has it: for every payload that is an object whose
`columns` field is a non-empty array of arrays, the normalisation step yields
as many records as the first array `columns[0]` has elements; record `i` has
exactly one field per column, named by the position `k` of the column, whose
value is `columns[k][i]`, or `undefined` when column `k` has `i` or fewer
elements; no record has a `latitude`, `longitude`, `address`, `price`,
`bedrooms` or `bathrooms` field. The test of line 25 lets a `columns` value
into the columnar branch exactly when it is an array, whatever its elements
are. -/
theorem columnar_array_records (loopBound : JsValue → Option Nat)
    (fields : List (JsString × JsValue)) (c0 : List JsValue) (rest : List (List JsValue))
    (h : fields.lookup (utf16 "columns") = some (.arr ((c0 :: rest).map .arr))) :
    (∃ records, normalize loopBound (.obj fields) = .ok records ∧
      records.length = c0.length ∧
      ∀ i : Nat, i < c0.length →
        ∃ record, records[i]? = some record ∧
          fieldNames record = (List.range (c0 :: rest).length).map indexKey ∧
          (∀ (k : Nat) (col : List JsValue), (c0 :: rest)[k]? = some col →
            getProp record (indexKey k) = .ok (col.getD i .undefined)) ∧
          ∀ name ∈ featureFieldNames, name ∉ fieldNames record) ∧
      ∀ columns, columnarGuard columns = true ↔ ∃ cols, columns = .arr cols := by
  refine ⟨⟨_, normalize_columns_arrays loopBound fields c0 rest h, by simp, ?_⟩, ?_⟩
  · intro i hi
    refine ⟨rowOfColumns (c0 :: rest) i, by simp [hi], rowOfColumns_fieldNames _ i,
      fun k col hk => rowOfColumns_field _ i k col hk, ?_⟩
    intro name hname hmem
    rw [rowOfColumns_fieldNames] at hmem
    obtain ⟨k, _, hk⟩ := List.mem_map.mp hmem
    exact featureFieldNames_not_index name hname k hk
  · intro columns
    rw [columnarGuard_eq_isArray]
    constructor
    · intro hg
      cases columns <;> simp [JsValue.isArray] at hg
      exact ⟨_, rfl⟩
    · rintro ⟨cols, rfl⟩
      rfl

theorem columnar_array_records_witness :
    [(utf16 "columns", JsValue.arr [.arr [natNum 1, natNum 2], .arr [natNum 3]])].lookup
        (utf16 "columns") = some (.arr (([natNum 1, natNum 2] :: [[natNum 3]]).map .arr)) ∧
      ∃ records, normalize noIterations raggedArrayPayload = .ok records ∧
        records.length = [natNum 1, natNum 2].length ∧
        ∀ i : Nat, i < [natNum 1, natNum 2].length →
          ∃ record, records[i]? = some record ∧
            fieldNames record =
              (List.range ([natNum 1, natNum 2] :: [[natNum 3]]).length).map indexKey ∧
            (∀ (k : Nat) (col : List JsValue),
              ([natNum 1, natNum 2] :: [[natNum 3]])[k]? = some col →
                getProp record (indexKey k) = .ok (col.getD i .undefined)) ∧
            ∀ name ∈ featureFieldNames, name ∉ fieldNames record :=
  ⟨by simp [List.lookup],
    (columnar_array_records noIterations _ _ _ (by simp [List.lookup])).1⟩

/-- C1 at `{"columns": {"lat": [1, 2], "lon": [3, 4]}}`: the `columns` field
is a mapping with two sequences of length 2, and the normalisation step
yields one record, the payload itself, not the two records of the columns:
`Array.isArray(parsedData.columns)` is false for a mapping. -/
theorem mapping_columns_not_converted (loopBound : JsValue → Option Nat) :
    ∃ records, normalize loopBound mappingPayload = .ok records ∧
      records = [mappingPayload] ∧ records.length = 1 :=
  ⟨_, normalize_obj_of_not_array loopBound _ (by intro cols; simp [List.lookup]), rfl, rfl⟩

/-- C2 fails on `{"columns": {"a": [1, 2, 3], "b": [4, 5]}}`: the shortest
sequence has 2 elements and the normalisation step yields 1 record. -/
theorem ragged_mapping_not_truncated :
    normalize noIterations raggedMappingPayload = .ok [raggedMappingPayload] ∧
      shortestLength [[natNum 1, natNum 2, natNum 3], [natNum 4, natNum 5]] = 2 ∧
      [raggedMappingPayload].length ≠
        shortestLength [[natNum 1, natNum 2, natNum 3], [natNum 4, natNum 5]] :=
  ⟨normalize_obj_of_not_array noIterations _ (by intro cols; simp [List.lookup]),
    by decide, by decide⟩

/-- C2, as the code has it: a payload whose `columns` field is a mapping
(of names to sequences, of equal lengths or not) does not make the
normalisation step raise; and where the columnar branch runs, on a `columns`
array whose elements are sequences, the number of records is the length of
the first sequence, whatever the lengths of the others, with no truncation to
the shortest. -/
theorem mismatched_columns_first_length (loopBound : JsValue → Option Nat) :
    (∀ (fields mapping : List (JsString × JsValue)),
        fields.lookup (utf16 "columns") = some (.obj mapping) →
          ∃ records, normalize loopBound (.obj fields) = .ok records) ∧
      ∀ (fields : List (JsString × JsValue)) (c0 : List JsValue) (rest : List (List JsValue)),
        fields.lookup (utf16 "columns") = some (.arr ((c0 :: rest).map .arr)) →
          ∃ records, normalize loopBound (.obj fields) = .ok records ∧
            records.length = c0.length := by
  constructor
  · intro fields mapping h
    exact ⟨_, normalize_obj_of_not_array loopBound fields (by intro cols; simp [h])⟩
  · intro fields c0 rest h
    exact ⟨_, normalize_columns_arrays loopBound fields c0 rest h, by simp⟩

theorem mismatched_columns_first_length_witness :
    (∃ records, normalize noIterations raggedMappingPayload = .ok records) ∧
      ∃ records, normalize noIterations raggedArrayPayload = .ok records ∧
        records.length = [natNum 1, natNum 2].length :=
  ⟨(mismatched_columns_first_length noIterations).1 _ _ rfl,
    (mismatched_columns_first_length noIterations).2 _ [natNum 1, natNum 2] [[natNum 3]]
      (by simp [List.lookup])⟩

/-! ## Field sets of the records -/

theorem normalize_not_array_fieldNames (loopBound : JsValue → Option Nat)
    (parsedData : JsValue) (records : List JsValue) (hshape : parsedData.isArray = false)
    (h : normalize loopBound parsedData = .ok records) :
    records = [parsedData] ∨ ∃ names, ∀ r ∈ records, fieldNames r = names := by
  unfold normalize at h
  split at h
  · simp [JsValue.isArray] at hshape
  · split at h
    · exact absurd h (by simp)
    · exact absurd h (by simp)
    · split at h
      · exact Or.inr ⟨_, columnsToRecords_keys loopBound _ records h⟩
      · simp only [Outcome.ok.injEq] at h
        exact Or.inl h.symm

/-- C8 fails on `[{"a": 1}, {"b": 2}]`: the normalisation step succeeds and
its two records have different field names; no field is added to a record
that lacks it. -/
theorem sequence_records_differ_in_fields :
    ∃ records, normalize noIterations mixedRecordsPayload = .ok records ∧
      ∃ r1 ∈ records, ∃ r2 ∈ records, fieldNames r1 ≠ fieldNames r2 :=
  ⟨_, rfl, .obj [(utf16 "a", natNum 1)], by simp, .obj [(utf16 "b", natNum 2)], by simp,
    by decide⟩

/-- C8, as the code has it: for every payload that is not a sequence and on
which the normalisation step succeeds, all records have the same field names;
in the columnar branch a column that has no value at row `i` still gives
record `i` its field, holding `undefined`. A payload that is a sequence is
passed through as it is, its elements keeping the fields they have. -/
theorem non_sequence_records_same_fields (loopBound : JsValue → Option Nat) :
    (∀ (parsedData : JsValue) (records : List JsValue), parsedData.isArray = false →
        normalize loopBound parsedData = .ok records →
          ∀ r1 ∈ records, ∀ r2 ∈ records, fieldNames r1 = fieldNames r2) ∧
      (∀ (fields : List (JsString × JsValue)) (c0 : List JsValue) (rest : List (List JsValue)),
        fields.lookup (utf16 "columns") = some (.arr ((c0 :: rest).map .arr)) →
          ∃ records, normalize loopBound (.obj fields) = .ok records ∧
            ∀ (i k : Nat) (col : List JsValue), i < c0.length →
              (c0 :: rest)[k]? = some col → col.length ≤ i →
                ∃ record, records[i]? = some record ∧ indexKey k ∈ fieldNames record ∧
                  getProp record (indexKey k) = .ok .undefined) ∧
      ∀ xs : List JsValue, normalize loopBound (.arr xs) = .ok xs := by
  refine ⟨?_, ?_, fun xs => rfl⟩
  · intro parsedData records hshape h r1 h1 r2 h2
    rcases normalize_not_array_fieldNames loopBound parsedData records hshape h with
      hone | ⟨names, hall⟩
    · subst hone
      simp only [List.mem_singleton] at h1 h2
      rw [h1, h2]
    · rw [hall r1 h1, hall r2 h2]
  · intro fields c0 rest h
    refine ⟨_, normalize_columns_arrays loopBound fields c0 rest h, ?_⟩
    intro i k col hi hk hshort
    refine ⟨rowOfColumns (c0 :: rest) i, by simp [hi], ?_, ?_⟩
    · rw [rowOfColumns_fieldNames]
      have hlt : k < (c0 :: rest).length := by
        by_contra hge
        rw [List.getElem?_eq_none (Nat.le_of_not_lt hge)] at hk
        exact absurd hk (by simp)
      exact List.mem_map.mpr ⟨k, List.mem_range.mpr hlt, rfl⟩
    · rw [rowOfColumns_field _ i k col hk, List.getD_eq_default _ _ hshort]

theorem non_sequence_records_same_fields_witness :
    raggedArrayPayload.isArray = false ∧
      normalize noIterations raggedArrayPayload =
        .ok ((List.range 2).map (rowOfColumns [[natNum 1, natNum 2], [natNum 3]])) ∧
      (∀ r1 ∈ (List.range 2).map (rowOfColumns [[natNum 1, natNum 2], [natNum 3]]),
        ∀ r2 ∈ (List.range 2).map (rowOfColumns [[natNum 1, natNum 2], [natNum 3]]),
          fieldNames r1 = fieldNames r2) ∧
      ∃ records, normalize noIterations raggedArrayPayload = .ok records ∧
        ∀ (i k : Nat) (col : List JsValue), i < [natNum 1, natNum 2].length →
          ([natNum 1, natNum 2] :: [[natNum 3]])[k]? = some col → col.length ≤ i →
            ∃ record, records[i]? = some record ∧ indexKey k ∈ fieldNames record ∧
              getProp record (indexKey k) = .ok .undefined :=
  ⟨rfl, normalize_columns_arrays noIterations _ [natNum 1, natNum 2] [[natNum 3]]
      (by simp [List.lookup]),
    (non_sequence_records_same_fields noIterations).1 raggedArrayPayload _ rfl
      (normalize_columns_arrays noIterations _ [natNum 1, natNum 2] [[natNum 3]]
        (by simp [List.lookup])),
    (non_sequence_records_same_fields noIterations).2.1 _ [natNum 1, natNum 2] [[natNum 3]]
      (by simp [List.lookup])⟩

/-! ## Feature projection -/

theorem jsOr_eq_default (v d : JsValue) :
    jsOr v d = if isMissingValue v then d else v := by
  cases v with
  | undefined => rfl
  | null => rfl
  | bool b => cases b <;> rfl
  | num n =>
    cases n with
    | finite neg m e => cases m <;> rfl
    | inf neg => rfl
    | nan => rfl
  | str s => cases s <;> rfl
  | arr xs => rfl
  | obj fields => rfl

theorem toFeature_obj (fields : List (JsString × JsValue)) :
    toFeature (.obj fields) = .ok (featureOfFields fields) :=
  rfl

/-- C6: for every record, each display attribute of its feature is decided
from its own field alone: `title` is the `address`, or "Property" when the
address is absent, null or falsy-empty; `price`, `bedrooms` and `bathrooms`
are the values of these fields, or "N/A" when the value is absent, null or
falsy-empty. A record without `price` and a record whose `price` is zero both
get the price attribute "N/A", whatever their other fields are. -/
theorem display_attributes_by_field (fields : List (JsString × JsValue)) :
    ∃ feature, toFeature (.obj fields) = .ok feature ∧
      feature.properties.title =
        (if isMissingValue (fieldValue fields (utf16 "address")) then .str (utf16 "Property")
          else fieldValue fields (utf16 "address")) ∧
      feature.properties.price =
        (if isMissingValue (fieldValue fields (utf16 "price")) then .str (utf16 "N/A")
          else fieldValue fields (utf16 "price")) ∧
      feature.properties.bedrooms =
        (if isMissingValue (fieldValue fields (utf16 "bedrooms")) then .str (utf16 "N/A")
          else fieldValue fields (utf16 "bedrooms")) ∧
      feature.properties.bathrooms =
        (if isMissingValue (fieldValue fields (utf16 "bathrooms")) then .str (utf16 "N/A")
          else fieldValue fields (utf16 "bathrooms")) ∧
      (fields.lookup (utf16 "price") = none →
        feature.properties.price = .str (utf16 "N/A")) ∧
      ∀ (neg : Bool) (e : Int), fields.lookup (utf16 "price") = some (.num (.finite neg 0 e)) →
        feature.properties.price = .str (utf16 "N/A") := by
  refine ⟨_, toFeature_obj fields, jsOr_eq_default _ _, jsOr_eq_default _ _,
    jsOr_eq_default _ _, jsOr_eq_default _ _, ?_, ?_⟩
  · intro h
    show jsOr (fieldValue fields (utf16 "price")) (.str (utf16 "N/A")) = _
    rw [fieldValue, h]
    rfl
  · intro neg e h
    show jsOr (fieldValue fields (utf16 "price")) (.str (utf16 "N/A")) = _
    rw [fieldValue, h]
    rfl

theorem display_attributes_by_field_witness :
    singleRecordFields.lookup (utf16 "price") = some (.num (.finite false 0 0)) ∧
      ∃ feature, toFeature (.obj singleRecordFields) = .ok feature ∧
        feature.properties.title = .str (utf16 "1 Main St") ∧
        feature.properties.price = .str (utf16 "N/A") ∧
        feature.properties.bedrooms = .str (utf16 "N/A") := by
  obtain ⟨feature, hf, ht, _, hb, _, _, hzero⟩ := display_attributes_by_field singleRecordFields
  exact ⟨rfl, feature, hf, ht, hzero false 0 rfl, hb⟩

theorem project_objects (records : List (List (JsString × JsValue))) :
    ∃ features, project (records.map .obj) = .ok features ∧
      features.map Feature.coordinates =
        records.map fun r => [fieldValue r (utf16 "longitude"), fieldValue r (utf16 "latitude")] := by
  induction records with
  | nil => exact ⟨[], rfl, rfl⟩
  | cons r rest ih =>
    obtain ⟨fs, hfs, hcoords⟩ := ih
    refine ⟨featureOfFields r :: fs, ?_, ?_⟩
    · simp only [List.map_cons, project, toFeature_obj, hfs]
    · simp [hcoords, featureOfFields]

/-- An element `null` of the sequence makes the arrow function of line 75
raise; the `load` handler is left before `map.addSource`. -/
theorem project_null_raises :
    project [.null] = .raised .typeError ∧ loadHandler [.null] = [] :=
  ⟨rfl, rfl⟩

/-- C7: for every sequence of records the projection builds one point feature
per record, in the order of the records; the coordinates of feature `i` are
the `longitude` and the `latitude` of record `i`, in that order and as they
are (`undefined` for a missing one, any value that is not a number as it is);
nothing is validated, the projection never raises and the `load` handler
hands the features to `map.addSource`. -/
theorem project_one_feature_per_record (records : List (List (JsString × JsValue))) :
    ∃ features, project (records.map .obj) = .ok features ∧
      features.length = records.length ∧
      (∀ i : Nat, (features[i]?).map Feature.coordinates =
        (records[i]?).map fun r =>
          [fieldValue r (utf16 "longitude"), fieldValue r (utf16 "latitude")]) ∧
      loadHandler (records.map .obj) =
        [.addSource features, .addLayer, .onClick, .onMouseEnter, .onMouseLeave] := by
  obtain ⟨features, hproj, hcoords⟩ := project_objects records
  refine ⟨features, hproj, ?_, ?_, ?_⟩
  · have := congrArg List.length hcoords
    simpa using this
  · intro i
    have := congrArg (fun l => l[i]?) hcoords
    simpa using this
  · simp only [loadHandler, hproj]

/-! ## The credential check -/

theorem afterParse_of_normalize_ok (env : Env) (parsedData : JsValue)
    (records : List JsValue) (h : normalize env.loopBound parsedData = .ok records) :
    afterParse env parsedData = createMap env records := by
  cases parsedData <;>
    first
      | (exfalso; simp [normalize, getProp] at h; done)
      | simp only [afterParse, objectKeys, objectEntries, h]

theorem createMap_of_tokenMissing (env : Env) (records : List JsValue)
    (h : tokenMissing env.token = true) :
    createMap env records = [.setVis .tokenInstructions] := by
  simp [createMap, h]

theorem afterParse_no_map_work (env : Env) (parsedData : JsValue)
    (h : tokenMissing env.token = true) :
    ∀ eff ∈ afterParse env parsedData, eff.isMapWork = false := by
  intro eff heff
  unfold afterParse at heff
  split at heff
  · simp only [List.mem_singleton] at heff
    rw [heff]; rfl
  · simp at heff
  · split at heff
    · simp only [List.mem_singleton] at heff
      rw [heff]; rfl
    · simp at heff
    · rw [createMap_of_tokenMissing env _ h] at heff
      simp only [List.mem_singleton] at heff
      rw [heff]; rfl

/-- C9 fails on a run in which `init()` resolves, the payload
`[{"address": "1 Main St", "price": 0}]` is retrieved and the credential is
`undefined`: `load_and_render_map` is called before the check is made. In the
same run with a retrieval that raises, `vis` gets the error dump and not the
instructional message. -/
theorem missing_token_checked_after_retrieval :
    tokenMissing unsetTokenEnv.token = true ∧
      run unsetTokenEnv = [.wasmInit, .loadAndRenderMap, .setVis .tokenInstructions] ∧
      Effect.loadAndRenderMap ∈ run unsetTokenEnv ∧
      run { unsetTokenEnv with parsed := .raised .syntaxError } =
        [.wasmInit, .loadAndRenderMap, .setVis (.errorDump .syntaxError)] :=
  ⟨rfl, rfl, by simp [run, unsetTokenEnv], rfl⟩

/-- C9, as the code has it: whenever the credential is undefined or equals the
placeholder, `run` constructs no map and registers no source, layer or
handler. The check comes after the retrieval: `load_and_render_map` is called
in every run in which `init()` resolves; when the payload is retrieved, parsed
and normalised without error, the content of `vis` is set to the fixed
instructional message, and when the retrieval or the parsing raises, it is set
to the error dump of the `catch` handler. -/
theorem missing_token_no_map_work (env : Env) (h : tokenMissing env.token = true) :
    (∀ eff ∈ run env, eff.isMapWork = false) ∧
      (env.initOk = true → Effect.loadAndRenderMap ∈ run env) ∧
      (∀ parsedData records, env.initOk = true → env.parsed = .ok parsedData →
        normalize env.loopBound parsedData = .ok records →
          run env = [.wasmInit, .loadAndRenderMap, .setVis .tokenInstructions]) ∧
      ∀ e, env.initOk = true → env.parsed = .raised e →
        run env = [.wasmInit, .loadAndRenderMap, .setVis (.errorDump e)] := by
  refine ⟨?_, ?_, ?_, ?_⟩
  · intro eff heff
    unfold run at heff
    split at heff
    · simp only [List.mem_cons] at heff
      rcases heff with rfl | rfl | heff
      · rfl
      · rfl
      · split at heff
        · simp only [List.mem_singleton] at heff
          rw [heff]; rfl
        · simp at heff
        · exact afterParse_no_map_work env _ h eff heff
    · simp only [List.mem_singleton] at heff
      rw [heff]; rfl
  · intro hinit
    simp [run, hinit]
  · intro parsedData records hinit hparsed hnorm
    simp only [run, hinit, if_true, hparsed, afterParse_of_normalize_ok env _ _ hnorm,
      createMap_of_tokenMissing env _ h]
  · intro e hinit hparsed
    simp only [run, hinit, if_true, hparsed]

theorem missing_token_no_map_work_witness :
    tokenMissing (JsValue.str (utf16 "YOUR_MAPBOX_ACCESS_TOKEN_HERE")) = true ∧
      ∀ eff ∈ run { unsetTokenEnv with token := .str (utf16 "YOUR_MAPBOX_ACCESS_TOKEN_HERE") },
        eff.isMapWork = false :=
  ⟨by decide,
    (missing_token_no_map_work
      { unsetTokenEnv with token := .str (utf16 "YOUR_MAPBOX_ACCESS_TOKEN_HERE") }
      (by decide)).1⟩

end DmvPriceTracker
